import Mathlib

/-!
Shallow embedding of `pytorch_pfn_extras/training/extensions/parameter_statistics.py`
(class `ParameterStatistics`).

Modelling choices:
* A tensor element is a `Scalar`: either the floating-point NaN sentinel or a
  rational number (exact floating-point rounding is irrelevant to every claim;
  only NaN-ness and elementwise identity matter).
* A parameter's `data` / `grad` attributes are stored already flattened as a
  `List Scalar` (`.flatten()` is the identity on the flattened contents; no
  claim depends on tensor shape).
* A statistic function takes the flattened one-dimensional tensor and returns a
  `Value`: either a single (python or 0-dim) scalar or a tensor of elements.
* Python `dict`s (the statistics registry and the per-invocation flat mapping)
  are insertion-ordered association lists; `d[k] = v` overwrites in place when
  the key is present and appends otherwise (`dictSet`).
* The manager type `M` is a parameter; the trigger (an external collaborator,
  resolved by `trigger_module.get_trigger` at construction) is modelled as a
  predicate `M → Bool`.
-/

/-- A single tensor element: the NaN sentinel or a (rational) number. -/
inductive Scalar where
  | nan : Scalar
  | num (q : ℚ) : Scalar
deriving DecidableEq, Repr

/-- `torch.isnan` on one element. -/
def Scalar.isnan : Scalar → Bool
  | .nan => true
  | .num _ => false

/-- A value produced by a statistic function: a plain scalar (python number or
0-dim tensor) or a `torch.Tensor` with its (flattened) elements. -/
inductive Value where
  | scalar (s : Scalar) : Value
  | tensor (elems : List Scalar) : Value
deriving DecidableEq, Repr

/-- `isinstance(value, torch.Tensor)`. -/
def Value.isTensor : Value → Bool
  | .scalar _ => false
  | .tensor _ => true

/-- `value.numel()` (a non-tensor scalar counts as one element). -/
def Value.numel : Value → Nat
  | .scalar _ => 1
  | .tensor es => es.length

/-- The elements enumerated by `enumerate(value)` for a tensor value. -/
def Value.elems : Value → List Scalar
  | .scalar s => [s]
  | .tensor es => es

/-- A statistic function: 1-D array in, single or multiple real numbers out. -/
def StatFn : Type := List Scalar → Value

/-- A named parameter's observable attributes, already flattened. -/
structure Param where
  data : List Scalar
  grad : List Scalar
deriving DecidableEq, Repr

/-- A module (link): exposes `named_parameters()` as an ordered list of
(name, parameter) pairs. -/
structure Link where
  namedParameters : List (String × Param)
deriving DecidableEq, Repr

/-- The attribute names scanned by the extension. -/
inductive Attr where
  | data : Attr
  | grad : Attr
deriving DecidableEq, Repr

/-- The string form of an attribute name. -/
def Attr.name : Attr → String
  | .data => "data"
  | .grad => "grad"

/-- `getattr(param, attr_name).flatten()`. -/
def Attr.flattened (param : Param) : Attr → List Scalar
  | .data => param.data
  | .grad => param.grad

/-- Python `d[k] = v` on an insertion-ordered dict represented as an
association list: overwrite in place when present, append otherwise. -/
def dictSet {α : Type} (d : List (String × α)) (k : String) (v : α) :
    List (String × α) :=
  if d.any (fun p => p.1 == k) then
    d.map (fun p => if p.1 == k then (k, v) else p)
  else
    d ++ [(k, v)]

/-- Python `dict(pairs)` / `d.update(pairs)`: fold `dictSet` left to right. -/
def dictUpdate {α : Type} (d : List (String × α)) (pairs : List (String × α)) :
    List (String × α) :=
  pairs.foldl (fun acc p => dictSet acc p.1 p.2) d

/-- First value stored under a key, if any. -/
def dictGet {α : Type} (d : List (String × α)) (k : String) : Option α :=
  (d.find? (fun p => p.1 == k)).map (fun p => p.2)

/-- Modelled from the spec: the summary accumulator (`reporting.DictSummary`,
whose source is not part of this repository) "ingests a mapping of key→value on
each call and maintains running means keyed by report key".  Per key we keep
the running sum and the number of ingested values. -/
structure DictSummary where
  entries : List (String × Scalar × Nat)
deriving Repr

/-- A fresh, empty summary (`reporting.DictSummary()`). -/
def DictSummary.empty : DictSummary := ⟨[]⟩

/-- Scalar addition; NaN is absorbing. -/
def Scalar.add : Scalar → Scalar → Scalar
  | .nan, _ => .nan
  | .num _, .nan => .nan
  | .num a, .num b => .num (a + b)

/-- Scalar division by a count; NaN propagates and an empty count yields NaN. -/
def Scalar.divNat : Scalar → Nat → Scalar
  | .nan, _ => .nan
  | .num _, 0 => .nan
  | .num a, (n + 1) => .num (a / (n + 1 : ℚ))

/-- The scalar a stored value contributes to the summary (values reaching the
summary are single scalars or tensors holding at most one element). -/
def Value.toScalar : Value → Scalar
  | .scalar s => s
  | .tensor [s] => s
  | .tensor _ => .nan

/-- Modelled from the spec: ingest one key→value pair into the running sums. -/
def DictSummary.addOne (d : DictSummary) (k : String) (v : Value) : DictSummary :=
  if d.entries.any (fun p => p.1 == k) then
    ⟨d.entries.map (fun p =>
      if p.1 == k then (k, (p.2.1.add v.toScalar, p.2.2 + 1)) else p)⟩
  else
    ⟨d.entries ++ [(k, (v.toScalar, 1))]⟩

/-- Modelled from the spec: `summary.add(statistics)` — ingest a flat mapping. -/
def DictSummary.add (d : DictSummary) (stats : List (String × Value)) :
    DictSummary :=
  stats.foldl (fun acc p => acc.addOne p.1 p.2) d

/-- Modelled from the spec: `summary.compute_mean()` — the per-key running
means accumulated since the last flush. -/
def DictSummary.compute_mean (d : DictSummary) : List (String × Scalar) :=
  d.entries.map (fun p => (p.1, p.2.1.divNat p.2.2))

/-- `torch.mean(x)` on the flattened elements. -/
def torch_mean (x : List Scalar) : Value :=
  if x.any Scalar.isnan ∨ x.length = 0 then .scalar .nan
  else .scalar ((x.foldl Scalar.add (.num 0)).divNat x.length)

/-- `torch.std(x)`; the square root leaves ℚ, so the (unbiased) variance
stands in for it — no claim depends on its numeric value. -/
def torch_std (x : List Scalar) : Value :=
  if x.any Scalar.isnan ∨ x.length ≤ 1 then .scalar .nan
  else
    let n : ℚ := x.length
    let xs := x.map (fun s => match s with | .nan => (0 : ℚ) | .num q => q)
    let m : ℚ := xs.sum / n
    .scalar (.num ((xs.map (fun q => (q - m) ^ 2)).sum / (n - 1)))

/-- `torch.min(x)`. -/
def torch_min (x : List Scalar) : Value :=
  if x.any Scalar.isnan ∨ x.length = 0 then .scalar .nan
  else
    let xs := x.map (fun s => match s with | .nan => (0 : ℚ) | .num q => q)
    .scalar (.num (xs.foldl min (xs.headD 0)))

/-- `torch.max(x)`. -/
def torch_max (x : List Scalar) : Value :=
  if x.any Scalar.isnan ∨ x.length = 0 then .scalar .nan
  else
    let xs := x.map (fun s => match s with | .nan => (0 : ℚ) | .num q => q)
    .scalar (.num (xs.foldl max (xs.headD 0)))

/-- `(x == 0).sum()` — the zero count (NaN compares unequal to zero). -/
def torch_zeros (x : List Scalar) : Value :=
  .scalar (.num ((x.filter (fun s => s == .num 0)).length))

/-- `_default_statistics`: the built-in registry. -/
def default_statistics : List (String × StatFn) :=
  [("mean", torch_mean), ("std", torch_std), ("min", torch_min),
   ("max", torch_max), ("zeros", torch_zeros)]

/-- The `links` constructor argument: a single module or a list/tuple. -/
inductive LinksArg where
  | single (l : Link) : LinksArg
  | ofList (ls : List Link) : LinksArg

/-- The `statistics` constructor argument: `'default'`, `None`, or a dict. -/
inductive StatisticsArg where
  | defaultArg : StatisticsArg
  | noneArg : StatisticsArg
  | explicit (m : List (String × StatFn)) : StatisticsArg

/-- The state of a `ParameterStatistics` instance; `M` is the manager type the
trigger predicate observes. -/
structure ParameterStatistics (M : Type) where
  links : List Link
  statistics : List (String × StatFn)
  attrs : List Attr
  pfx : Option String
  trigger : M → Bool
  summary : DictSummary
  skip_nan_params : Bool

/-- `ParameterStatistics.__init__`. -/
def ParameterStatistics.new {M : Type} (links : LinksArg)
    (statistics : StatisticsArg) (report_params : Bool) (report_grads : Bool)
    (pfx : Option String) (trigger : M → Bool) (skip_nan_params : Bool) :
    ParameterStatistics M :=
  { links :=
      match links with
      | .single l => [l]
      | .ofList ls => ls
    statistics :=
      dictUpdate []
        (match statistics with
         | .noneArg => []
         | .defaultArg => default_statistics
         | .explicit m => m)
    attrs :=
      (if report_params then [Attr.data] else [])
        ++ (if report_grads then [Attr.grad] else [])
    pfx := pfx
    trigger := trigger
    summary := DictSummary.empty
    skip_nan_params := skip_nan_params }

/-- `self._prefix + '/' if self._prefix else ''` — `None` and the empty string
are both falsy, so neither contributes a prefix or a separator. -/
def prefixPart : Option String → String
  | none => ""
  | some s => if s = "" then "" else s ++ "/"

/-- `self.report_key_template.format(...)` with the prefix part already
rendered by `prefixPart`. -/
def formatKey (pfxStr param_name attr_name function_name : String) : String :=
  pfxStr ++ param_name ++ "/" ++ attr_name ++ "/" ++ function_name

/-- Lines 139–145: flatten the attribute and either short-circuit to the NaN
sentinel (`skip_nan_params` and some element is NaN) or apply the function. -/
def computeValue (skip : Bool) (function : StatFn) (params : List Scalar) :
    Value :=
  if skip && params.any Scalar.isnan then .scalar .nan else function params

/-- Lines 152–159: the key→value pairs one (key, value) emission contributes to
the flat mapping — expanded with `/{index}` suffixes when the value is a tensor
holding more than one element, stored directly otherwise. -/
def emitPairs (key : String) (value : Value) : List (String × Value) :=
  if value.isTensor && value.numel > 1 then
    value.elems.enum.map (fun p => (key ++ "/" ++ toString p.1, Value.scalar p.2))
  else
    [(key, value)]

/-- The innermost loop body: the pairs produced for one
(parameter, attribute, statistic function) combination. -/
def processOne (skip : Bool) (pfxStr : String) (param_name : String)
    (param : Param) (attr : Attr) (function_name : String) (function : StatFn) :
    List (String × Value) :=
  let params := attr.flattened param
  let value := computeValue skip function params
  let key := formatKey pfxStr param_name attr.name function_name
  emitPairs key value

/-- All pairs produced by the four nested loops of `__call__`, in emission
order (links → parameters → attributes → functions). -/
def statisticsFor {M : Type} (st : ParameterStatistics M) :
    List (String × Value) :=
  st.links.flatMap fun link =>
    link.namedParameters.flatMap fun pp =>
      st.attrs.flatMap fun attr =>
        st.statistics.flatMap fun fp =>
          processOne st.skip_nan_params (prefixPart st.pfx) pp.1 pp.2 attr
            fp.1 fp.2

/-- The per-invocation flat mapping `statistics` built by `__call__`
(dict insertion order, later writes overwrite earlier ones on collision). -/
def collect {M : Type} (st : ParameterStatistics M) : List (String × Value) :=
  dictUpdate [] (statisticsFor st)

/-- `ParameterStatistics.__call__`: update the summary with this invocation's
flat mapping; when the trigger fires, hand the summary's means to the
reporting sink (`reporting.report`, modelled as the `Option` output) and reset
the summary. -/
def ParameterStatistics.call {M : Type} (st : ParameterStatistics M)
    (manager : M) : ParameterStatistics M × Option (List (String × Scalar)) :=
  let statistics := collect st
  let summary := st.summary.add statistics
  if st.trigger manager then
    ({ st with summary := DictSummary.empty }, some summary.compute_mean)
  else
    ({ st with summary := summary }, none)

/-- `ParameterStatistics.register_statistics`: insert or overwrite `name` in
the registry. -/
def ParameterStatistics.register_statistics {M : Type}
    (st : ParameterStatistics M) (name : String) (function : StatFn) :
    ParameterStatistics M :=
  { st with statistics := dictSet st.statistics name function }

/-! ## Helper lemmas about the dict model -/

theorem mem_dictSet {α : Type} {d : List (String × α)} {k0 : String} {v0 : α}
    {k : String} {v : α} (h : (k, v) ∈ dictSet d k0 v0) :
    (k, v) ∈ d ∨ (k = k0 ∧ v = v0) := by
  unfold dictSet at h
  split at h
  · rcases List.mem_map.mp h with ⟨p, hp, hpe⟩
    by_cases hk : p.1 == k0
    · simp [hk] at hpe
      right
      exact ⟨hpe.1.symm, hpe.2.symm⟩
    · simp [hk] at hpe
      left
      rwa [hpe] at hp
  · rcases List.mem_append.mp h with h1 | h1
    · exact Or.inl h1
    · simp at h1
      exact Or.inr h1

theorem mem_dictSet_self {α : Type} (d : List (String × α)) (k : String)
    (v : α) : (k, v) ∈ dictSet d k v := by
  unfold dictSet
  split
  · rename_i hany
    rcases List.any_eq_true.mp hany with ⟨p, hp, hpk⟩
    exact List.mem_map.mpr ⟨p, hp, by simp [hpk]⟩
  · exact List.mem_append.mpr (Or.inr (by simp))

theorem mem_dictUpdate {α : Type} {pairs : List (String × α)}
    {d : List (String × α)} {k : String} {v : α}
    (h : (k, v) ∈ dictUpdate d pairs) :
    (k, v) ∈ d ∨ ∃ v', (k, v') ∈ pairs := by
  induction pairs generalizing d with
  | nil => exact Or.inl h
  | cons p ps ih =>
    rcases ih (by simpa [dictUpdate] using h) with h1 | h1
    · rcases mem_dictSet h1 with h2 | h2
      · exact Or.inl h2
      · exact Or.inr ⟨p.2, by rw [h2.1]; simp⟩
    · rcases h1 with ⟨v', hv'⟩
      exact Or.inr ⟨v', List.mem_cons_of_mem _ hv'⟩

theorem mem_emitPairs {key : String} {value : Value} {k : String} {v : Value}
    (h : (k, v) ∈ emitPairs key value) :
    k = key ∨ ∃ i, i < value.numel ∧ k = key ++ "/" ++ toString i := by
  unfold emitPairs at h
  split at h
  · rcases List.mem_map.mp h with ⟨p, hp, hpe⟩
    have hi := List.mem_enum hp
    right
    refine ⟨p.1, ?_, ?_⟩
    · rename_i hcond
      have : value.isTensor = true := by
        cases value <;> simp_all [Value.isTensor]
      cases value with
      | scalar s => simp [Value.isTensor] at this
      | tensor es => simpa [Value.numel, Value.elems] using hi.1
    · exact congrArg Prod.fst hpe |>.symm
  · simp at h
    exact Or.inl h.1

theorem mem_statisticsFor {M : Type} {st : ParameterStatistics M}
    {k : String} {v : Value} (h : (k, v) ∈ statisticsFor st) :
    ∃ link ∈ st.links, ∃ pp ∈ link.namedParameters, ∃ attr ∈ st.attrs,
      ∃ fp ∈ st.statistics,
        (k, v) ∈ processOne st.skip_nan_params (prefixPart st.pfx) pp.1 pp.2
          attr fp.1 fp.2 := by
  unfold statisticsFor at h
  rcases List.mem_flatMap.mp h with ⟨link, hl, h⟩
  rcases List.mem_flatMap.mp h with ⟨pp, hpp, h⟩
  rcases List.mem_flatMap.mp h with ⟨attr, hattr, h⟩
  rcases List.mem_flatMap.mp h with ⟨fp, hfp, h⟩
  exact ⟨link, hl, pp, hpp, attr, hattr, fp, hfp, h⟩

/-! ## The claims -/

/-- **C1**: every entry of the per-invocation flat mapping has key exactly
`{prefix}{param_name}/{attr_name}/{function_name}` — where the prefix part is
the configured prefix followed by a trailing `/` separator, and empty when no
prefix is configured — optionally suffixed `/{index}` for a multi-valued
statistic. -/
theorem C1_report_key_format {M : Type} (st : ParameterStatistics M)
    (k : String) (v : Value) (h : (k, v) ∈ collect st) :
    ∃ link ∈ st.links, ∃ pp ∈ link.namedParameters, ∃ attr ∈ st.attrs,
      ∃ fp ∈ st.statistics,
        k = formatKey (prefixPart st.pfx) pp.1 attr.name fp.1 ∨
        ∃ i : ℕ, k = formatKey (prefixPart st.pfx) pp.1 attr.name fp.1
          ++ "/" ++ toString i := by
  unfold collect at h
  rcases mem_dictUpdate h with h1 | ⟨v', h1⟩
  · simp at h1
  · rcases mem_statisticsFor h1 with ⟨link, hl, pp, hpp, attr, hattr, fp, hfp, hmem⟩
    refine ⟨link, hl, pp, hpp, attr, hattr, fp, hfp, ?_⟩
    unfold processOne at hmem
    rcases mem_emitPairs hmem with h2 | ⟨i, _, h2⟩
    · exact Or.inl h2
    · exact Or.inr ⟨i, h2⟩

/-- A concrete instance used by witnesses: one link, one parameter `w` with
data `[1, 3]` and gradient `[0]`, a single registered statistic `f` returning
the first element, `report_params=True`, `report_grads=False`, no prefix. -/
def stWitness : ParameterStatistics Unit :=
  ParameterStatistics.new (.single ⟨[("w", ⟨[.num 1, .num 3], [.num 0]⟩)]⟩)
    (.explicit [("f", fun x => Value.scalar (x.headD .nan))]) true false none
    (fun _ => true) false

/-- Witness for C1: the key `w/data/f` actually stored by `stWitness` has the
stated shape. -/
theorem C1_report_key_format_witness :
    ∃ link ∈ stWitness.links, ∃ pp ∈ link.namedParameters,
      ∃ attr ∈ stWitness.attrs, ∃ fp ∈ stWitness.statistics,
        ("w/data/f" : String) = formatKey (prefixPart stWitness.pfx) pp.1
          attr.name fp.1 ∨
        ∃ i : ℕ, ("w/data/f" : String) = formatKey (prefixPart stWitness.pfx)
          pp.1 attr.name fp.1 ++ "/" ++ toString i :=
  C1_report_key_format stWitness "w/data/f" (Value.scalar (.num 1)) (by decide)

/-- **C2**: a multi-element statistic result of length `k > 1` is stored as
exactly `k` entries suffixed `/0` … `/{k-1}`, one element per entry in the
elements' original order, with nothing stored under the unsuffixed base key;
a single-scalar result is stored directly under the unsuffixed key. -/
theorem C2_multi_value_expansion (key : String) (es : List Scalar)
    (h : 1 < es.length) :
    emitPairs key (.tensor es) =
      es.enum.map (fun p => (key ++ "/" ++ toString p.1, Value.scalar p.2)) ∧
    (emitPairs key (.tensor es)).length = es.length ∧
    (∀ v : Value, (key, v) ∉ emitPairs key (.tensor es)) ∧
    (∀ s : Scalar, emitPairs key (.scalar s) = [(key, .scalar s)]) := by
  have h1 : emitPairs key (.tensor es) =
      es.enum.map (fun p => (key ++ "/" ++ toString p.1, Value.scalar p.2)) := by
    unfold emitPairs
    simp [Value.isTensor, Value.numel, Value.elems, h]
  refine ⟨h1, ?_, ?_, ?_⟩
  · rw [h1]
    simp
  · intro v hv
    rw [h1] at hv
    rcases List.mem_map.mp hv with ⟨p, _, hpe⟩
    have hk : key ++ "/" ++ toString p.1 = key := congrArg Prod.fst hpe
    have hlen := congrArg String.length hk
    rw [String.length_append, String.length_append] at hlen
    have : ("/" : String).length = 1 := rfl
    omega
  · intro s
    rfl

/-- Witness for C2 at `key = "k"`, `es = [NaN, 0]`. -/
theorem C2_multi_value_expansion_witness :
    emitPairs "k" (.tensor [Scalar.nan, .num 0]) =
      ([Scalar.nan, Scalar.num 0]).enum.map
        (fun p => ("k" ++ "/" ++ toString p.1, Value.scalar p.2)) ∧
    (emitPairs "k" (.tensor [Scalar.nan, .num 0])).length =
      ([Scalar.nan, Scalar.num 0] : List Scalar).length ∧
    (∀ v : Value, ("k", v) ∉ emitPairs "k" (.tensor [Scalar.nan, .num 0])) ∧
    (∀ s : Scalar, emitPairs "k" (.scalar s) = [("k", .scalar s)]) :=
  C2_multi_value_expansion "k" [Scalar.nan, .num 0] (by decide)

/-- **C3**: with `skip_nan_params=True`, a (parameter, attribute) whose
flattened tensor contains at least one NaN contributes the single NaN scalar
under the unsuffixed key for every statistic function, and the configured
function is never applied (the contribution is the same for every function);
when the flattened tensor contains no NaN the computed value is
`function(flattened_value)`. -/
theorem C3_skip_nan_params (pfxStr param_name function_name : String)
    (param : Param) (attr : Attr) (function : StatFn)
    (h : (attr.flattened param).any Scalar.isnan = true) :
    processOne true pfxStr param_name param attr function_name function =
      [(formatKey pfxStr param_name attr.name function_name,
        Value.scalar .nan)] ∧
    (∀ g : StatFn,
      processOne true pfxStr param_name param attr function_name function =
        processOne true pfxStr param_name param attr function_name g) ∧
    (∀ params : List Scalar, params.any Scalar.isnan = false →
      computeValue true function params = function params) := by
  refine ⟨?_, ?_, ?_⟩
  · unfold processOne computeValue
    simp [h, emitPairs, Value.isTensor]
  · intro g
    unfold processOne computeValue
    simp [h]
  · intro params hp
    unfold computeValue
    simp [hp]

/-- Witness for C3: a parameter whose data is `[NaN]`. -/
theorem C3_skip_nan_params_witness :
    processOne true "" "w" ⟨[Scalar.nan], []⟩ Attr.data "f"
        (fun _ => Value.scalar (.num 0)) =
      [(formatKey "" "w" Attr.data.name "f", Value.scalar .nan)] ∧
    (∀ g : StatFn,
      processOne true "" "w" ⟨[Scalar.nan], []⟩ Attr.data "f"
          (fun _ => Value.scalar (.num 0)) =
        processOne true "" "w" ⟨[Scalar.nan], []⟩ Attr.data "f" g) ∧
    (∀ params : List Scalar, params.any Scalar.isnan = false →
      computeValue true (fun _ => Value.scalar (.num 0)) params =
        (fun _ => Value.scalar (.num 0) : StatFn) params) :=
  C3_skip_nan_params "" "w" "f" ⟨[Scalar.nan], []⟩ Attr.data
    (fun _ => Value.scalar (.num 0)) (by decide)

/-- **C4**: on an invocation where the trigger does not fire, nothing is
handed to the reporting sink and the summary accumulator (updated with this
invocation's mapping) is retained; when the trigger fires, exactly one
mapping — the per-key running means accumulated since the last flush — is
handed to the sink and the accumulator is replaced with a fresh empty one. -/
theorem C4_trigger_flush {M : Type} (st : ParameterStatistics M)
    (manager : M) :
    (st.call manager).2 =
      (if st.trigger manager then
        some ((st.summary.add (collect st)).compute_mean)
      else none) ∧
    (st.call manager).1.summary =
      (if st.trigger manager then DictSummary.empty
       else st.summary.add (collect st)) := by
  unfold ParameterStatistics.call
  by_cases h : st.trigger manager <;> simp [h]

theorem find_overwrite {α : Type} (k : String) (v : α) :
    ∀ d : List (String × α), d.any (fun p => p.1 == k) = true →
      (d.map (fun p => if p.1 == k then (k, v) else p)).find?
        (fun p => p.1 == k) = some (k, v) := by
  intro d hany
  induction d with
  | nil => simp at hany
  | cons p ps ih =>
    rw [List.map_cons]
    by_cases hp : p.1 == k
    · rw [if_pos hp]
      exact List.find?_cons_of_pos _ (by simp)
    · rw [if_neg hp,
        @List.find?_cons_of_neg _ (fun q => q.1 == k) p
          (ps.map fun q => if q.1 == k then (k, v) else q) hp]
      exact ih (by simpa [hp] using hany)

theorem find_overwrite_ne {α : Type} (k k' : String) (v : α) (hne : k' ≠ k) :
    ∀ d : List (String × α),
      (d.map (fun p => if p.1 == k then (k, v) else p)).find?
        (fun p => p.1 == k') = d.find? (fun p => p.1 == k') := by
  intro d
  induction d with
  | nil => rfl
  | cons p ps ih =>
    rw [List.map_cons]
    by_cases hp : p.1 == k
    · have hpk : p.1 = k := by simpa using hp
      have h1 : ¬(((k, v) : String × α).1 == k') = true := by
        simp only [beq_iff_eq]
        exact fun h => hne h.symm
      have h2 : ¬(p.1 == k') = true := by
        rw [hpk]
        simp only [beq_iff_eq]
        exact fun h => hne h.symm
      rw [if_pos hp,
        @List.find?_cons_of_neg _ (fun q => q.1 == k') (k, v)
          (ps.map fun q => if q.1 == k then (k, v) else q) h1,
        @List.find?_cons_of_neg _ (fun q => q.1 == k') p ps h2]
      exact ih
    · rw [if_neg hp]
      by_cases hq : p.1 == k'
      · rw [@List.find?_cons_of_pos _ (fun q => q.1 == k') p
            (ps.map fun q => if q.1 == k then (k, v) else q) hq,
          @List.find?_cons_of_pos _ (fun q => q.1 == k') p ps hq]
      · rw [@List.find?_cons_of_neg _ (fun q => q.1 == k') p
            (ps.map fun q => if q.1 == k then (k, v) else q) hq,
          @List.find?_cons_of_neg _ (fun q => q.1 == k') p ps hq]
        exact ih

theorem dictGet_dictSet_self {α : Type} (d : List (String × α)) (k : String)
    (v : α) : dictGet (dictSet d k v) k = some v := by
  unfold dictSet dictGet
  split
  · rw [find_overwrite k v d (by assumption)]
    rfl
  · rename_i hany
    rw [List.find?_append]
    have hnone : d.find? (fun p => p.1 == k) = none := by
      rw [List.find?_eq_none]
      intro x hx
      intro hcon
      exact hany (List.any_eq_true.mpr ⟨x, hx, hcon⟩)
    simp [hnone, List.find?]

theorem dictGet_dictSet_ne {α : Type} (d : List (String × α)) (k k' : String)
    (v : α) (hne : k' ≠ k) : dictGet (dictSet d k v) k' = dictGet d k' := by
  unfold dictSet dictGet
  split
  · rw [find_overwrite_ne k k' v hne d]
  · rw [List.find?_append]
    have h1 : ([(k, v)]).find? (fun p => p.1 == k') = none := by
      have : (k == k') = false := by
        simp only [beq_eq_false_iff_ne]
        exact fun h => hne h.symm
      simp [List.find?, this]
    rw [h1]
    cases d.find? (fun p => p.1 == k') <;> rfl

/-- **C5**: `register_statistics(name, function)` inserts or overwrites the
entry for `name` in the instance's statistics registry (other entries are
untouched); since the registry is enumerated afresh on each invocation, any
invocation after the registration produces, for every scanned parameter and
attribute, entries computed by the newly registered function whose unsuffixed
report key ends in `/name`. -/
theorem C5_register_statistics {M : Type} (st : ParameterStatistics M)
    (name : String) (function : StatFn) :
    dictGet (st.register_statistics name function).statistics name =
      some function ∧
    (∀ k', k' ≠ name →
      dictGet (st.register_statistics name function).statistics k' =
        dictGet st.statistics k') ∧
    (∀ pfxStr param_name attr_name, ∃ s,
      formatKey pfxStr param_name attr_name name = s ++ "/" ++ name) ∧
    (∀ link ∈ (st.register_statistics name function).links,
      ∀ pp ∈ link.namedParameters,
        ∀ attr ∈ (st.register_statistics name function).attrs,
          ∀ pair ∈ processOne st.skip_nan_params (prefixPart st.pfx) pp.1 pp.2
              attr name function,
            pair ∈ statisticsFor (st.register_statistics name function)) := by
  refine ⟨?_, ?_, ?_, ?_⟩
  · exact dictGet_dictSet_self st.statistics name function
  · intro k' hk'
    exact dictGet_dictSet_ne st.statistics name k' function hk'
  · intro pfxStr param_name attr_name
    refine ⟨pfxStr ++ param_name ++ "/" ++ attr_name, ?_⟩
    unfold formatKey
    simp [String.append_assoc]
  · intro link hl pp hpp attr hattr pair hpair
    unfold statisticsFor
    refine List.mem_flatMap.mpr ⟨link, hl, ?_⟩
    refine List.mem_flatMap.mpr ⟨pp, hpp, ?_⟩
    refine List.mem_flatMap.mpr ⟨attr, hattr, ?_⟩
    exact List.mem_flatMap.mpr
      ⟨(name, function), mem_dictSet_self st.statistics name function, hpair⟩

/-- Witness for C5: registering `f2` on `stWitness` makes the very next
invocation emit the pair `("w/data/f2", 5)` computed by the new function. -/
theorem C5_register_statistics_witness :
    dictGet (stWitness.register_statistics "f2"
        (fun _ => Value.scalar (.num 5))).statistics "f2" =
      some (fun _ => Value.scalar (.num 5)) ∧
    ("w/data/f2", Value.scalar (.num 5)) ∈
      statisticsFor (stWitness.register_statistics "f2"
        (fun _ => Value.scalar (.num 5))) := by
  have h := C5_register_statistics stWitness "f2"
    (fun _ => Value.scalar (.num 5))
  refine ⟨h.1, ?_⟩
  exact h.2.2.2 ⟨[("w", ⟨[.num 1, .num 3], [.num 0]⟩)]⟩ (by decide)
    ("w", ⟨[.num 1, .num 3], [.num 0]⟩) (by decide) Attr.data (by decide)
    ("w/data/f2", Value.scalar (.num 5)) (by decide)

theorem flatMap_nil_fun {α β : Type} (l : List α) :
    (l.flatMap fun _ => ([] : List β)) = [] := by simp

/-- Does `sub` occur at the head of the second list? -/
def headMatches : List Char → List Char → Bool
  | [], _ => true
  | _ :: _, [] => false
  | a :: as, b :: bs => a == b && headMatches as bs

/-- Does `sub` occur anywhere in the second list? -/
def subOccurs (sub : List Char) : List Char → Bool
  | [] => headMatches sub []
  | c :: cs => headMatches sub (c :: cs) || subOccurs sub cs

/-- Substring test: does `sub` occur in `s`? -/
def containsSub (s sub : String) : Bool := subOccurs sub.toList s.toList

/-- A configuration with `report_params=True`, `report_grads=False`, and a
statistic function registered under the name `a/grad/b`. -/
def stC6 : ParameterStatistics Unit :=
  ParameterStatistics.new (.single ⟨[("w", ⟨[.num 0], []⟩)]⟩)
    (.explicit [("a/grad/b", fun _ => Value.scalar (.num 0))]) true false none
    (fun _ => true) false

/-- **C6 counterexample**: with `report_params=True` and `report_grads=False`
(attribute set `['data']`) a produced report key can still contain the
substring `/grad/` — here through the statistic function's name — so the
claim's "no produced report key contains '/grad/'" is false as stated. -/
theorem C6_counterexample :
    stC6.attrs = [Attr.data] ∧
    (collect stC6).any (fun p => containsSub p.1 "/grad/") = true := by
  exact ⟨rfl, by decide⟩

/-- **C6 (amended)**: `'data'` is scanned iff `report_params` and `'grad'` iff
`report_grads`; with `report_params=True, report_grads=False` every produced
entry's key is built with attribute segment `"data"` (no key is derived from
the 'grad' attribute, though other name segments may still contain the text
'/grad/'), and with both flags false no statistics are produced. -/
theorem C6_attrs_from_flags {M : Type} (links : LinksArg)
    (stats : StatisticsArg) (rp rg : Bool) (p : Option String)
    (trig : M → Bool) (skip : Bool) :
    (Attr.data ∈ (ParameterStatistics.new links stats rp rg p trig skip :
        ParameterStatistics M).attrs ↔ rp = true) ∧
    (Attr.grad ∈ (ParameterStatistics.new links stats rp rg p trig skip :
        ParameterStatistics M).attrs ↔ rg = true) ∧
    (∀ kv ∈ statisticsFor
        (ParameterStatistics.new links stats true false p trig skip :
          ParameterStatistics M),
      ∃ param_name function_name,
        kv.1 = formatKey (prefixPart p) param_name "data" function_name ∨
        ∃ i : ℕ, kv.1 = formatKey (prefixPart p) param_name "data"
          function_name ++ "/" ++ toString i) ∧
    collect (ParameterStatistics.new links stats false false p trig skip :
      ParameterStatistics M) = [] := by
  refine ⟨?_, ?_, ?_, ?_⟩
  · cases rp <;> cases rg <;> simp [ParameterStatistics.new]
  · cases rp <;> cases rg <;> simp [ParameterStatistics.new]
  · rintro ⟨k, v⟩ hkv
    rcases mem_statisticsFor hkv with ⟨link, _, pp, _, attr, hattr, fp, _, hmem⟩
    have hattr' : attr = Attr.data := by
      simpa [ParameterStatistics.new] using hattr
    subst hattr'
    refine ⟨pp.1, fp.1, ?_⟩
    unfold processOne at hmem
    rcases mem_emitPairs hmem with h2 | ⟨i, _, h2⟩
    · exact Or.inl h2
    · exact Or.inr ⟨i, h2⟩
  · have hattrs : (ParameterStatistics.new links stats false false p trig skip :
        ParameterStatistics M).attrs = [] := rfl
    unfold collect statisticsFor dictUpdate
    simp [hattrs, flatMap_nil_fun]

/-- Witness for the amended C6 at a concrete produced entry. -/
theorem C6_attrs_from_flags_witness :
    ∃ param_name function_name,
      (("w/data/f", Value.scalar (Scalar.num 1)) : String × Value).1 =
        formatKey (prefixPart none) param_name "data" function_name ∨
      ∃ i : ℕ, (("w/data/f", Value.scalar (Scalar.num 1)) : String × Value).1 =
        formatKey (prefixPart none) param_name "data" function_name
          ++ "/" ++ toString i :=
  (C6_attrs_from_flags (.single ⟨[("w", ⟨[.num 1, .num 3], [.num 0]⟩)]⟩)
    (.explicit [("f", fun x => Value.scalar (x.headD .nan))]) true false none
    (fun _ : Unit => true) false).2.2.1 ("w/data/f", Value.scalar (.num 1))
    (by decide)

theorem collect_of_statistics_nil {M : Type} (st : ParameterStatistics M)
    (h : st.statistics = []) : collect st = [] := by
  unfold collect statisticsFor dictUpdate
  simp [h, flatMap_nil_fun]

/-- **C7**: constructed with `statistics=None` or `statistics={}`, the registry
is empty and the per-invocation flat mapping is empty on every invocation,
regardless of the links' contents; no statistic function is ever enumerated. -/
theorem C7_empty_registry {M : Type} (links : LinksArg) (rp rg : Bool)
    (p : Option String) (trig : M → Bool) (skip : Bool) :
    ((ParameterStatistics.new links .noneArg rp rg p trig skip :
        ParameterStatistics M).statistics = [] ∧
      collect (ParameterStatistics.new links .noneArg rp rg p trig skip :
        ParameterStatistics M) = []) ∧
    ((ParameterStatistics.new links (.explicit []) rp rg p trig skip :
        ParameterStatistics M).statistics = [] ∧
      collect (ParameterStatistics.new links (.explicit []) rp rg p trig skip :
        ParameterStatistics M) = []) :=
  ⟨⟨rfl, collect_of_statistics_nil _ rfl⟩,
   ⟨rfl, collect_of_statistics_nil _ rfl⟩⟩

/-- **C8**: the constructor accepts either a single container or a sequence of
containers for `links` and normalizes it into a fixed-order sequence, and an
invocation leaves that sequence unchanged, so every subsequent invocation
iterates the same containers in the same order. -/
theorem C8_links_normalized {M : Type} (l : Link) (ls : List Link)
    (stats : StatisticsArg) (rp rg : Bool) (p : Option String)
    (trig : M → Bool) (skip : Bool) (st : ParameterStatistics M)
    (manager : M) :
    (ParameterStatistics.new (.single l) stats rp rg p trig skip :
      ParameterStatistics M).links = [l] ∧
    (ParameterStatistics.new (.ofList ls) stats rp rg p trig skip :
      ParameterStatistics M).links = ls ∧
    (st.call manager).1.links = st.links := by
  refine ⟨rfl, rfl, ?_⟩
  unfold ParameterStatistics.call
  by_cases h : st.trigger manager <;> simp [h]

/-- **C9**: no invocation mutates any parameter value or gradient of the
configured links: after `__call__` the links are the very same sequence, and
in particular every parameter's `data` and `grad` contents are unchanged. -/
theorem C9_links_read_only {M : Type} (st : ParameterStatistics M)
    (manager : M) :
    (st.call manager).1.links = st.links ∧
    ((st.call manager).1.links).map (fun l => l.namedParameters.map
        (fun pp => (pp.1, (pp.2).data, (pp.2).grad))) =
      st.links.map (fun l => l.namedParameters.map
        (fun pp => (pp.1, (pp.2).data, (pp.2).grad))) := by
  have h : (st.call manager).1.links = st.links := by
    unfold ParameterStatistics.call
    by_cases hb : st.trigger manager <;> simp [hb]
  exact ⟨h, by rw [h]⟩

theorem statisticsFor_congr {M : Type} (st st' : ParameterStatistics M)
    (hl : st.links = st'.links) (hs : st.statistics = st'.statistics)
    (ha : st.attrs = st'.attrs)
    (hp : prefixPart st.pfx = prefixPart st'.pfx)
    (hk : st.skip_nan_params = st'.skip_nan_params) :
    statisticsFor st = statisticsFor st' := by
  unfold statisticsFor
  simp only [hl, hs, ha, hp, hk]

/-- **C10**: a configuration constructed with `prefix=''` produces exactly the
same flat mapping as one constructed with `prefix=None`: in both cases nothing
(in particular no leading `/` separator) is prepended to any report key. -/
theorem C10_empty_prefix_like_none {M : Type} (links : LinksArg)
    (stats : StatisticsArg) (rp rg : Bool) (trig : M → Bool) (skip : Bool) :
    prefixPart (some "") = prefixPart none ∧
    collect (ParameterStatistics.new links stats rp rg (some "") trig skip :
        ParameterStatistics M) =
      collect (ParameterStatistics.new links stats rp rg none trig skip) := by
  have hpp : prefixPart (some "") = prefixPart none := by
    simp [prefixPart]
  refine ⟨hpp, ?_⟩
  unfold collect
  rw [statisticsFor_congr
    (ParameterStatistics.new links stats rp rg (some "") trig skip)
    (ParameterStatistics.new links stats rp rg none trig skip)
    rfl rfl rfl hpp rfl]
